import Mathlib

/-!
Verification of the static-analysis core of the caracal repository against its
specification.  The definitions below are a shallow embedding of
`src/core/function.rs` (the program model and call classifier).  The CFG
structure, the dataflow engine and the reentrancy analysis are not among the
analyzed sources (`core/cfg.rs`, `analysis/dataflow.rs`, `analysis/reentrancy.rs`
are absent), so those parts are modelled from the specification, as marked in
their doc comments.  Rust panics (`unwrap`/`expect`/out-of-range indexing) are
modelled by `Option`, with `none` standing for a fatal failure.
-/

namespace Caracal

/-- Identifier of a concrete type in the IR.  Only the rendered debug name is
used by the embedded operations (`returns`, `params`); the numeric id is
omitted. -/
structure ConcreteTypeId where
  debug_name : Option String
deriving DecidableEq

/-- Declared parameter of a function.  The variable binding `id` is omitted:
it is unused by the embedded operations. -/
structure Param where
  ty : ConcreteTypeId
deriving DecidableEq

/-- Declared signature; only `ret_types` is read by the embedded code. -/
structure FunctionSignature where
  ret_types : List ConcreteTypeId
deriving DecidableEq

/-- Underlying IR function data.  `id` is the rendered function identifier:
the Rust code only ever observes `data.id` through `to_string()`, so it is
embedded directly as a `String`. -/
structure SierraFunction where
  id : String
  signature : FunctionSignature
  params : List Param
  entry_point : Nat
deriving DecidableEq

/-- An invocation statement.  Argument and result variable bindings are
omitted: only the invoked library function's id is read by the embedded
operations. -/
structure Invocation where
  libfunc_id : String
deriving DecidableEq

/-- A statement of the IR: an invocation or a return. -/
inductive SierraStatement where
  | invocation (invoc : Invocation)
  | ret
deriving DecidableEq

/-- The registry's resolution of a library function: either a call of the
program function with the given debug name (`FunctionCall`), or any other
concrete operation (collapsed into `Other`, which the classifier ignores). -/
inductive CoreConcreteLibfunc where
  | FunctionCall (callee_debug_name : Option String)
  | Other
deriving DecidableEq

/-- The program registry, as the association of library-function ids to their
concrete resolutions. -/
abbrev Registry := List (String × CoreConcreteLibfunc)

/-- Registry lookup; `none` models a lookup failure (the Rust code `expect`s
on it). -/
def getLibfunc (registry : Registry) (id : String) : Option CoreConcreteLibfunc :=
  (List.find? (fun p => decide (p.1 = id)) registry).map Prod.snd

/-- The role of a function (the `Type` enum of the source; `Type` is reserved
in Lean, hence the name `Ty`). -/
inductive Ty where
  | External
  | View
  | Private
  | Constructor
  | Event
  | Storage
  | Wrapper
  | Core
  | AbiCallContract
  | AbiLibraryCall
  | L1Handler
deriving DecidableEq

/-- Modelled from the spec (§4.5): the four-valued reentrancy lattice, ordered
`Unvisited` (bottom) to `WriteAfterCall` (top).  It stands for
`AnalysisState<ReentrancyAnalysis>`; `analysis/reentrancy.rs` is not among the
analyzed sources. -/
inductive ReentrancyState where
  | Unvisited
  | Clean
  | CallMade
  | WriteAfterCall
deriving DecidableEq, Fintype

/-- Analyses results of a function.  The Rust `HashMap<usize, _>` is embedded
as an association list from basic-block identifier to reentrancy state. -/
structure Analyses where
  reentrancy : List (Nat × ReentrancyState)
deriving DecidableEq

/-- Modelled from the spec (§3): a basic block of the CFG (`core/cfg.rs` is not
among the analyzed sources): an identifier, the ordered statement slice, and
the successor identifiers. -/
structure BasicBlock where
  id : Nat
  instructions : List SierraStatement
  outgoing : List Nat
deriving DecidableEq

/-- Modelled from the spec (§3): the regular CFG (`core/cfg.rs` is not among
the analyzed sources): the basic blocks and the entry block identifier. -/
structure CfgRegular where
  basic_blocks : List BasicBlock
  entry_id : Nat
deriving DecidableEq

/-- `CfgRegular::new()`: the empty CFG a function starts with. -/
def CfgRegular.new : CfgRegular := { basic_blocks := [], entry_id := 0 }

/-- The program-model `Function` of `core/function.rs`. -/
structure Function where
  data : SierraFunction
  ty : Option Ty
  statements : List SierraStatement
  cfg_regular : CfgRegular
  storage_vars_read : List SierraStatement
  storage_vars_written : List SierraStatement
  core_functions_calls : List SierraStatement
  private_functions_calls : List SierraStatement
  events_emitted : List SierraStatement
  external_functions_calls : List SierraStatement
  library_functions_calls : List SierraStatement
  analyses : Analyses
deriving DecidableEq

/-- `Function::new`: role unset, all derived fields empty. -/
def Function.new (data : SierraFunction) (statements : List SierraStatement) : Function :=
  { data
    ty := none
    statements
    cfg_regular := CfgRegular.new
    storage_vars_read := []
    storage_vars_written := []
    core_functions_calls := []
    private_functions_calls := []
    events_emitted := []
    external_functions_calls := []
    library_functions_calls := []
    analyses := { reentrancy := [] } }

/-- `Function::name`: the rendered identifier. -/
def Function.name (f : Function) : String := f.data.id

/-- The role query `Function::ty()`; `none` models the fatal `unwrap` panic
when the role has not been assigned yet. -/
def getTy (f : Function) : Option Ty := f.ty

/-- `Function::set_ty`: assigns the role. -/
def set_ty (f : Function) (ty : Ty) : Function := { f with ty := some ty }

/-- `Function::get_statements`. -/
def get_statements (f : Function) : List SierraStatement := f.statements

/-- `Function::get_statements_at`: the slice `statements[at..]`; `none` models
the panic when the index exceeds the list length. -/
def get_statements_at (f : Function) (i : Nat) : Option (List SierraStatement) :=
  if i ≤ f.statements.length then some (List.drop i f.statements) else none

/-- Modelled from the spec (§4.1): the fixed `BUILTINS` set of implicit-builtin
type names from `crate::utils` (`utils.rs` is not among the analyzed sources):
gas/resource counters and system handles injected by the compiler.  The
claims about filtering hold for any fixed contents. -/
def BUILTINS : List String :=
  ["Bitwise", "EcOp", "GasBuiltin", "Pedersen", "Poseidon", "RangeCheck",
   "SegmentArena", "System"]

/-- The filtering pass of `Function::returns`; `none` models the per-element
`debug_name` unwrap panic inside the filter predicate. -/
def filterRets : List ConcreteTypeId → Option (List ConcreteTypeId)
  | [] => some []
  | r :: rest =>
    match r.debug_name with
    | none => none
    | some n =>
      match filterRets rest with
      | none => none
      | some l => some (if BUILTINS.contains n then l else r :: l)

/-- `Function::returns`: return types without the builtins. -/
def returns (f : Function) : Option (List ConcreteTypeId) :=
  filterRets f.data.signature.ret_types

/-- `Function::returns_all`. -/
def returns_all (f : Function) : List ConcreteTypeId := f.data.signature.ret_types

/-- The filtering pass of `Function::params`; `none` models the per-element
`debug_name` unwrap panic inside the filter predicate. -/
def filterParams : List Param → Option (List Param)
  | [] => some []
  | p :: rest =>
    match p.ty.debug_name with
    | none => none
    | some n =>
      match filterParams rest with
      | none => none
      | some l => some (if BUILTINS.contains n then l else p :: l)

/-- `Function::params`: parameters without the builtins. -/
def params (f : Function) : Option (List Param) := filterParams f.data.params

/-- `Function::params_all`. -/
def params_all (f : Function) : List Param := f.data.params

/-- The callee-name suffix test (Rust `str::ends_with`), over the underlying
character list. -/
def ends_with (s suffix : String) : Bool := decide (List.IsSuffix suffix.data s.data)

/-- The bucket update of `set_meta_informations` once the callee has been
resolved: role `t`, callee name `callee_name`, call site `s`. -/
def pushBucket (f : Function) (t : Ty) (callee_name : String) (s : SierraStatement) :
    Function :=
  match t with
  | Ty.Storage =>
    if ends_with callee_name "read" then
      { f with storage_vars_read := f.storage_vars_read ++ [s] }
    else if ends_with callee_name "write" then
      { f with storage_vars_written := f.storage_vars_written ++ [s] }
    else f
  | Ty.Event => { f with events_emitted := f.events_emitted ++ [s] }
  | Ty.Core => { f with core_functions_calls := f.core_functions_calls ++ [s] }
  | Ty.Private => { f with private_functions_calls := f.private_functions_calls ++ [s] }
  | Ty.AbiCallContract =>
    { f with external_functions_calls := f.external_functions_calls ++ [s] }
  | Ty.AbiLibraryCall =>
    { f with library_functions_calls := f.library_functions_calls ++ [s] }
  | _ => f

/-- The inner loop of `set_meta_informations` over the whole-program function
list; `none` models the unwrap panics: a missing callee debug name (hit on the
first iteration of a non-empty list) or an unassigned role of the first name
match. -/
def searchFunctions (f : Function) (s : SierraStatement) (callee : Option String) :
    List Function → Option Function
  | [] => some f
  | fn :: rest =>
    match callee with
    | none => none
    | some n =>
      if fn.name = n then
        match fn.ty with
        | none => none
        | some t => some (pushBucket f t fn.name s)
      else searchFunctions f s callee rest

/-- Processing of one statement by `set_meta_informations`; `none` models the
registry-lookup `expect` panic. -/
def set_meta_step (functions : List Function) (registry : Registry)
    (f : Function) (s : SierraStatement) : Option Function :=
  match s with
  | SierraStatement.ret => some f
  | SierraStatement.invocation invoc =>
    match getLibfunc registry invoc.libfunc_id with
    | none => none
    | some CoreConcreteLibfunc.Other => some f
    | some (CoreConcreteLibfunc.FunctionCall callee) => searchFunctions f s callee functions

/-- `Function::set_meta_informations`: one pass over the statement list,
pushing each resolvable program-function call into the bucket selected by the
callee's role. -/
def set_meta_informations (f : Function) (functions : List Function)
    (registry : Registry) : Option Function :=
  List.foldlM (set_meta_step functions registry) f f.statements

/-- The seven call-site buckets of a function, as one record. -/
structure Buckets where
  storage_vars_read : List SierraStatement
  storage_vars_written : List SierraStatement
  core_functions_calls : List SierraStatement
  private_functions_calls : List SierraStatement
  events_emitted : List SierraStatement
  external_functions_calls : List SierraStatement
  library_functions_calls : List SierraStatement
deriving DecidableEq

/-- The buckets currently stored in a function. -/
def bucketsOf (f : Function) : Buckets :=
  { storage_vars_read := f.storage_vars_read
    storage_vars_written := f.storage_vars_written
    core_functions_calls := f.core_functions_calls
    private_functions_calls := f.private_functions_calls
    events_emitted := f.events_emitted
    external_functions_calls := f.external_functions_calls
    library_functions_calls := f.library_functions_calls }

/-- Bucketwise concatenation. -/
def appendB (a b : Buckets) : Buckets :=
  { storage_vars_read := a.storage_vars_read ++ b.storage_vars_read
    storage_vars_written := a.storage_vars_written ++ b.storage_vars_written
    core_functions_calls := a.core_functions_calls ++ b.core_functions_calls
    private_functions_calls := a.private_functions_calls ++ b.private_functions_calls
    events_emitted := a.events_emitted ++ b.events_emitted
    external_functions_calls := a.external_functions_calls ++ b.external_functions_calls
    library_functions_calls := a.library_functions_calls ++ b.library_functions_calls }

/-- Empty buckets. -/
def emptyB : Buckets :=
  { storage_vars_read := []
    storage_vars_written := []
    core_functions_calls := []
    private_functions_calls := []
    events_emitted := []
    external_functions_calls := []
    library_functions_calls := []
  }

/-- Appending a record of bucket additions to a function, leaving every other
field unchanged. -/
def applyB (f : Function) (a : Buckets) : Function :=
  { f with
    storage_vars_read := f.storage_vars_read ++ a.storage_vars_read
    storage_vars_written := f.storage_vars_written ++ a.storage_vars_written
    core_functions_calls := f.core_functions_calls ++ a.core_functions_calls
    private_functions_calls := f.private_functions_calls ++ a.private_functions_calls
    events_emitted := f.events_emitted ++ a.events_emitted
    external_functions_calls := f.external_functions_calls ++ a.external_functions_calls
    library_functions_calls := f.library_functions_calls ++ a.library_functions_calls }

/-- The bucket additions of `pushBucket`, in isolation. -/
def pushAdds (t : Ty) (callee_name : String) (s : SierraStatement) : Buckets :=
  match t with
  | Ty.Storage =>
    if ends_with callee_name "read" then { emptyB with storage_vars_read := [s] }
    else if ends_with callee_name "write" then { emptyB with storage_vars_written := [s] }
    else emptyB
  | Ty.Event => { emptyB with events_emitted := [s] }
  | Ty.Core => { emptyB with core_functions_calls := [s] }
  | Ty.Private => { emptyB with private_functions_calls := [s] }
  | Ty.AbiCallContract => { emptyB with external_functions_calls := [s] }
  | Ty.AbiLibraryCall => { emptyB with library_functions_calls := [s] }
  | _ => emptyB

/-- The bucket additions of `searchFunctions`, in isolation. -/
def searchAdds (s : SierraStatement) (callee : Option String) :
    List Function → Option Buckets
  | [] => some emptyB
  | fn :: rest =>
    match callee with
    | none => none
    | some n =>
      if fn.name = n then
        match fn.ty with
        | none => none
        | some t => some (pushAdds t fn.name s)
      else searchAdds s callee rest

/-- The bucket additions of `set_meta_step`, in isolation. -/
def stepAdds (functions : List Function) (registry : Registry)
    (s : SierraStatement) : Option Buckets :=
  match s with
  | SierraStatement.ret => some emptyB
  | SierraStatement.invocation invoc =>
    match getLibfunc registry invoc.libfunc_id with
    | none => none
    | some CoreConcreteLibfunc.Other => some emptyB
    | some (CoreConcreteLibfunc.FunctionCall callee) => searchAdds s callee functions

/-- The bucket additions of a full classifier pass over a statement list. -/
def addsFor (functions : List Function) (registry : Registry) :
    List SierraStatement → Option Buckets
  | [] => some emptyB
  | s :: rest =>
    match stepAdds functions registry s with
    | none => none
    | some a =>
      match addsFor functions registry rest with
      | none => none
      | some b => some (appendB a b)

/-- Bucketwise order-preserving subsequence of a statement list. -/
def subB (a : Buckets) (l : List SierraStatement) : Prop :=
  List.Sublist a.storage_vars_read l ∧ List.Sublist a.storage_vars_written l ∧
  List.Sublist a.core_functions_calls l ∧ List.Sublist a.private_functions_calls l ∧
  List.Sublist a.events_emitted l ∧ List.Sublist a.external_functions_calls l ∧
  List.Sublist a.library_functions_calls l

/-- Modelled from the spec (§4.5): the rank of a lattice value under the order
`Unvisited` ⊑ `Clean` ⊑ `CallMade` ⊑ `WriteAfterCall`. -/
def rank : ReentrancyState → Nat
  | ReentrancyState.Unvisited => 0
  | ReentrancyState.Clean => 1
  | ReentrancyState.CallMade => 2
  | ReentrancyState.WriteAfterCall => 3

/-- Modelled from the spec (§4.5): the lattice order. -/
def stLe (a b : ReentrancyState) : Prop := rank a ≤ rank b

instance (a b : ReentrancyState) : Decidable (stLe a b) := Nat.decLe _ _

/-- Modelled from the spec (§4.5): lattice join = maximum under the rank
order. -/
def join (a b : ReentrancyState) : ReentrancyState :=
  if rank a ≤ rank b then b else a

/-- Modelled from the spec (§4.3/§4.5): resolution of a statement to the first
whole-program function whose name matches the called function's debug name
(the classification the reentrancy transfer function performs through the
`functions`/`registry` context). -/
def resolveCallee (functions : List Function) (registry : Registry)
    (s : SierraStatement) : Option Function :=
  match s with
  | SierraStatement.ret => none
  | SierraStatement.invocation invoc =>
    match getLibfunc registry invoc.libfunc_id with
    | some (CoreConcreteLibfunc.FunctionCall (some n)) =>
      List.find? (fun fn => decide (fn.name = n)) functions
    | _ => none

/-- Modelled from the spec (§4.5): a classified external-interface or
library-interface call statement. -/
def isInterfaceCall (functions : List Function) (registry : Registry)
    (s : SierraStatement) : Bool :=
  match resolveCallee functions registry s with
  | some fn => decide (fn.ty = some Ty.AbiCallContract ∨ fn.ty = some Ty.AbiLibraryCall)
  | none => false

/-- Modelled from the spec (§4.5, with §4.3's Storage row): a classified
storage-write statement. -/
def isStorageWriteCall (functions : List Function) (registry : Registry)
    (s : SierraStatement) : Bool :=
  match resolveCallee functions registry s with
  | some fn => decide (fn.ty = some Ty.Storage) && ends_with fn.name "write"
  | none => false

/-- Modelled from the spec (§4.5): the reentrancy transfer function: an
interface call raises the state at least to `CallMade`; a storage write while
the state is at least `CallMade` raises it to `WriteAfterCall`; every other
statement leaves the state unchanged. -/
def transfer (functions : List Function) (registry : Registry)
    (st : ReentrancyState) (s : SierraStatement) : ReentrancyState :=
  if isInterfaceCall functions registry s then join st ReentrancyState.CallMade
  else if isStorageWriteCall functions registry s then
    (if 2 ≤ rank st then ReentrancyState.WriteAfterCall else st)
  else st

/-- Modelled from the spec (§4.4): the transfer function applied across a
block's statements in order. -/
def blockTransfer (functions : List Function) (registry : Registry)
    (init : ReentrancyState) (stmts : List SierraStatement) : ReentrancyState :=
  List.foldl (transfer functions registry) init stmts

/-- Lookup of a basic block by identifier. -/
def findBlock (cfg : CfgRegular) (b : Nat) : Option BasicBlock :=
  List.find? (fun bb => decide (bb.id = b)) cfg.basic_blocks

/-- The predecessor blocks of a block identifier. -/
def predsOf (cfg : CfgRegular) (b : Nat) : List BasicBlock :=
  List.filter (fun bb => decide (b ∈ bb.outgoing)) cfg.basic_blocks

/-- Join of a list of lattice values. -/
def joinList (l : List ReentrancyState) : ReentrancyState :=
  List.foldl join ReentrancyState.Unvisited l

/-- Modelled from the spec (§4.4): the initial assignment: `Clean` at the
entry block, the bottom `Unvisited` everywhere else. -/
def initState (cfg : CfgRegular) : Nat → ReentrancyState :=
  fun b => if b = cfg.entry_id then ReentrancyState.Clean else ReentrancyState.Unvisited

/-- Modelled from the spec (§4.4): the incoming state of a block: the join of
all predecessor out-states.  A block with zero predecessors has its state as
seeded (the initial state, unchanged for the entry block): no update can ever
re-enqueue such a block, so the worklist processes it exactly once, applying
its transfer to the initial assignment only. -/
def inState (cfg : CfgRegular) (σ : Nat → ReentrancyState) (b : Nat) :
    ReentrancyState :=
  match predsOf cfg b with
  | [] => initState cfg b
  | ps => joinList (ps.map (fun bb => σ bb.id))

/-- Modelled from the spec (§4.4): one chaotic-iteration round of the
worklist, recomputing each block's out-state from its incoming join and the
block transfer (a fair schedule of the spec's worklist; a zero-predecessor
block always recomputes the same value, its transfer applied once to its
seeded state, exactly as a block that is processed once and never
re-enqueued). -/
def step (functions : List Function) (registry : Registry) (cfg : CfgRegular)
    (σ : Nat → ReentrancyState) : Nat → ReentrancyState :=
  fun b =>
    match findBlock cfg b with
    | some bb => blockTransfer functions registry (inState cfg σ b) bb.instructions
    | none => σ b

/-- The call-progress level of a lattice value: `Unvisited` and `Clean`
collapse to level 0 (the reentrancy transfer and the join never distinguish
them), `CallMade` is level 2 and `WriteAfterCall` level 3.  The engine's
dynamics factor through this level, and since the seeded assignment is level 0
everywhere, the level rises monotonically across rounds even when the entry
block has predecessors and its seeded `Clean` is discarded. -/
def lvl : ReentrancyState → Nat
  | ReentrancyState.Unvisited => 0
  | ReentrancyState.Clean => 0
  | ReentrancyState.CallMade => 2
  | ReentrancyState.WriteAfterCall => 3

/-- Order of call-progress levels. -/
def lvlLe (a b : ReentrancyState) : Prop := lvl a ≤ lvl b

instance (a b : ReentrancyState) : Decidable (lvlLe a b) := Nat.decLe _ _

/-- Pure iteration. -/
def iter {α : Type} (f : α → α) : Nat → α → α
  | 0, x => x
  | n + 1, x => f (iter f n x)

/-- Iteration bound sufficient to reach the fixpoint: each of the `n` blocks
can strictly rise at most 3 times in the four-valued lattice. -/
def engineFuel (cfg : CfgRegular) : Nat := 3 * cfg.basic_blocks.length + 1

/-- The state assignment after `k` rounds. -/
def engineIter (functions : List Function) (registry : Registry)
    (cfg : CfgRegular) (k : Nat) : Nat → ReentrancyState :=
  iter (step functions registry cfg) k (initState cfg)

/-- Modelled from the spec (§4.4): the engine's final assignment. -/
def engineStates (functions : List Function) (registry : Registry)
    (cfg : CfgRegular) : Nat → ReentrancyState :=
  engineIter functions registry cfg (engineFuel cfg)

/-- Modelled from the spec (§4.4): the engine's result: the map from block
identifier to final out-state (`Engine::result()`). -/
def engineResult (functions : List Function) (registry : Registry)
    (cfg : CfgRegular) : List (Nat × ReentrancyState) :=
  cfg.basic_blocks.map (fun bb => (bb.id, engineStates functions registry cfg bb.id))

/-- `Function::run_analyses`: a no-op unless the role is `External`; otherwise
runs the dataflow engine with the reentrancy analysis over the already-built
CFG and stores the per-block state map.  `none` models the `unwrap` panic on
an unassigned role. -/
def run_analyses (f : Function) (functions : List Function) (registry : Registry) :
    Option Function :=
  match f.ty with
  | none => none
  | some t =>
    if t = Ty.External then
      some { f with analyses :=
        { reentrancy := engineResult functions registry f.cfg_regular } }
    else some f

/-- A path through the CFG: consecutive identifiers are connected by a
successor edge and every identifier names a block. -/
def isPathB (cfg : CfgRegular) : List Nat → Bool
  | [] => false
  | [b] => (findBlock cfg b).isSome
  | a :: b :: rest =>
    (match findBlock cfg a with
     | some bb => bb.outgoing.contains b
     | none => false) && isPathB cfg (b :: rest)

/-- The statements encountered along a path, in program order. -/
def pathStmts (cfg : CfgRegular) (path : List Nat) : List SierraStatement :=
  (path.map (fun b => ((findBlock cfg b).map BasicBlock.instructions).getD [])).flatten

/-- The last identifier of a nonempty path, anchored on its head. -/
def lastOf : Nat → List Nat → Nat
  | b, [] => b
  | _, b :: rest => lastOf b rest

/- Concrete program material used by the witnesses and counterexamples. -/

/-- A minimal IR function record with the given rendered name. -/
def mkSierraFn (n : String) : SierraFunction :=
  { id := n, signature := { ret_types := [] }, params := [], entry_point := 0 }

/-- Callee with role `AbiCallContract`. -/
def calleeAbi : Function := set_ty (Function.new (mkSierraFn "IToken::transfer") []) Ty.AbiCallContract

/-- Callee with role `Storage`, name ending in `write`. -/
def calleeWrite : Function := set_ty (Function.new (mkSierraFn "balance::write") []) Ty.Storage

/-- Callee with role `Storage`, name ending in `read`. -/
def calleeRead : Function := set_ty (Function.new (mkSierraFn "balance::read") []) Ty.Storage

/-- Callee with role `Core`. -/
def calleeCore : Function := set_ty (Function.new (mkSierraFn "core::felt252_add") []) Ty.Core

/-- The whole-program function list of the concrete examples. -/
def progFns : List Function := [calleeAbi, calleeWrite, calleeRead, calleeCore]

/-- The registry of the concrete examples. -/
def regW : Registry :=
  [("call_abi", CoreConcreteLibfunc.FunctionCall (some "IToken::transfer")),
   ("call_write", CoreConcreteLibfunc.FunctionCall (some "balance::write")),
   ("call_read", CoreConcreteLibfunc.FunctionCall (some "balance::read")),
   ("other_op", CoreConcreteLibfunc.Other),
   ("call_unknown", CoreConcreteLibfunc.FunctionCall (some "missing_fn"))]

/-- Call site of the external-interface callee. -/
def sAbi : SierraStatement := SierraStatement.invocation { libfunc_id := "call_abi" }

/-- Call site of the storage-write callee. -/
def sWrite : SierraStatement := SierraStatement.invocation { libfunc_id := "call_write" }

/-- Call site of the storage-read callee. -/
def sRead : SierraStatement := SierraStatement.invocation { libfunc_id := "call_read" }

/-- Call site of an unresolvable callee. -/
def sUnknown : SierraStatement := SierraStatement.invocation { libfunc_id := "call_unknown" }

/-- A one-block CFG holding an external call followed by a storage write. -/
def cfgW : CfgRegular :=
  { basic_blocks := [{ id := 0, instructions := [sAbi, sWrite], outgoing := [] }]
    entry_id := 0 }

/-- An externally callable function with the call-then-write pattern. -/
def fExtW : Function :=
  { Function.new (mkSierraFn "contract::external_entry") [sAbi, sWrite] with
    ty := some Ty.External, cfg_regular := cfgW }

/-- The same body with role `Private`. -/
def fPrivW : Function :=
  { Function.new (mkSierraFn "contract::helper") [sAbi, sWrite] with
    ty := some Ty.Private, cfg_regular := cfgW }

/-- A freshly constructed function, role unset. -/
def fFresh : Function := Function.new (mkSierraFn "contract::f") []

/-- A function whose single statement is a storage write. -/
def fTwice : Function := Function.new (mkSierraFn "contract::writer") [sWrite]

/-- The result of one classifier run on `fTwice`. -/
def gOnce : Function := { fTwice with storage_vars_written := [sWrite] }

/-- The result of a second classifier run on `gOnce`. -/
def gTwiceR : Function := { fTwice with storage_vars_written := [sWrite, sWrite] }

/-- A function with builtin and non-builtin parameter and return types. -/
def fSig : Function :=
  Function.new
    { id := "contract::get_balance"
      signature := { ret_types := [{ debug_name := some "RangeCheck" },
                                   { debug_name := some "felt252" }] }
      params := [{ ty := { debug_name := some "GasBuiltin" } },
                 { ty := { debug_name := some "u256" } }]
      entry_point := 0 } []

/-- Two program functions sharing the name `X`, with different roles. -/
def fnXStorage : Function := set_ty (Function.new (mkSierraFn "X") []) Ty.Storage

/-- The later registration under the colliding name. -/
def fnXCore : Function := set_ty (Function.new (mkSierraFn "X") []) Ty.Core

/-- A program list with the duplicate name `X`. -/
def progX : List Function := [fnXStorage, fnXCore]

/-- A registry resolving `call_x` to the program function `X`. -/
def regX : Registry := [("call_x", CoreConcreteLibfunc.FunctionCall (some "X"))]

/-- Call site of `X`. -/
def sX : SierraStatement := SierraStatement.invocation { libfunc_id := "call_x" }

/-! ### Suffix-test lemmas -/

theorem ends_with_iff (s suffix : String) :
    ends_with s suffix = true ↔ List.IsSuffix suffix.data s.data := by
  simp [ends_with]

theorem ends_with_write_not_read (s : String)
    (h : ends_with s "write" = true) : ends_with s "read" = false := by
  rcases (ends_with_iff s "write").mp h with ⟨t1, ht1⟩
  rw [Bool.eq_false_iff]
  intro hr
  rcases (ends_with_iff s "read").mp hr with ⟨t2, ht2⟩
  have h2 : (t1 ++ "write".data).getLast? = (t2 ++ "read".data).getLast? := by
    rw [ht1, ht2]
  rw [List.getLast?_append_of_ne_nil _ (by decide),
    List.getLast?_append_of_ne_nil _ (by decide)] at h2
  exact absurd h2 (by decide)

/-! ### Classifier evaluation lemmas -/

theorem searchFunctions_first_match (f : Function) (s : SierraStatement)
    (fs1 fs2 : List Function) (fn : Function) (n : String) (t : Ty)
    (hmiss : ∀ g ∈ fs1, g.name ≠ n) (hname : fn.name = n) (hty : fn.ty = some t) :
    searchFunctions f s (some n) (fs1 ++ fn :: fs2) =
      some (pushBucket f t fn.name s) := by
  induction fs1 with
  | nil => simp [searchFunctions, hname, hty]
  | cons g rest ih =>
    have hg : g.name ≠ n := hmiss g (by simp)
    simp only [List.cons_append, searchFunctions, if_neg hg]
    exact ih (fun g' hg' => hmiss g' (by simp [hg']))

theorem searchFunctions_no_match (f : Function) (s : SierraStatement)
    (fs : List Function) (n : String) (hmiss : ∀ g ∈ fs, g.name ≠ n) :
    searchFunctions f s (some n) fs = some f := by
  induction fs with
  | nil => rfl
  | cons g rest ih =>
    have hg : g.name ≠ n := hmiss g (by simp)
    simp only [searchFunctions, if_neg hg]
    exact ih (fun g' h' => hmiss g' (by simp [h']))

/-! ### Bucket-decomposition lemmas: the classifier appends a record of
additions that depends only on the statement, the program list and the
registry -/

theorem applyB_emptyB (f : Function) : applyB f emptyB = f := by
  simp [applyB, emptyB]

theorem appendB_emptyB (b : Buckets) : appendB emptyB b = b := by
  simp [appendB, emptyB]

theorem applyB_applyB (f : Function) (a b : Buckets) :
    applyB (applyB f a) b = applyB f (appendB a b) := by
  simp [applyB, appendB, List.append_assoc]

theorem applyB_ty (f : Function) (a : Buckets) : (applyB f a).ty = f.ty := rfl

theorem applyB_statements (f : Function) (a : Buckets) :
    (applyB f a).statements = f.statements := rfl

theorem bucketsOf_applyB (f : Function) (a : Buckets) :
    bucketsOf (applyB f a) = appendB (bucketsOf f) a := rfl

theorem pushBucket_applyB (f : Function) (t : Ty) (n : String) (s : SierraStatement) :
    pushBucket f t n s = applyB f (pushAdds t n s) := by
  cases t <;> simp only [pushBucket, pushAdds] <;> (try split) <;> (try split) <;>
    simp [applyB, emptyB]

theorem searchFunctions_applyB (f : Function) (s : SierraStatement)
    (callee : Option String) (l : List Function) :
    searchFunctions f s callee l = Option.map (applyB f) (searchAdds s callee l) := by
  induction l with
  | nil => simp [searchFunctions, searchAdds, applyB_emptyB]
  | cons fn rest ih =>
    cases callee with
    | none => rfl
    | some n =>
      by_cases h : fn.name = n
      · simp only [searchFunctions, searchAdds, if_pos h]
        cases fn.ty <;> simp [pushBucket_applyB]
      · simp only [searchFunctions, searchAdds, if_neg h]
        exact ih

theorem set_meta_step_applyB (fs : List Function) (r : Registry)
    (f : Function) (s : SierraStatement) :
    set_meta_step fs r f s = Option.map (applyB f) (stepAdds fs r s) := by
  cases s with
  | ret => simp [set_meta_step, stepAdds, applyB_emptyB]
  | invocation invoc =>
    simp only [set_meta_step, stepAdds]
    cases getLibfunc r invoc.libfunc_id with
    | none => rfl
    | some lf =>
      cases lf with
      | Other => simp [applyB_emptyB]
      | FunctionCall callee =>
        exact searchFunctions_applyB f (SierraStatement.invocation invoc) callee fs

theorem foldlM_step_applyB (fs : List Function) (r : Registry) :
    ∀ (l : List SierraStatement) (f : Function),
      List.foldlM (set_meta_step fs r) f l =
        Option.map (applyB f) (addsFor fs r l) := by
  intro l
  induction l with
  | nil => intro f; simp [addsFor, applyB_emptyB]
  | cons s rest ih =>
    intro f
    have h1 : List.foldlM (set_meta_step fs r) f (s :: rest) =
        (set_meta_step fs r f s).bind
          (fun f' => List.foldlM (set_meta_step fs r) f' rest) := rfl
    rw [h1, set_meta_step_applyB]
    cases ha : stepAdds fs r s with
    | none => simp [addsFor, ha]
    | some a =>
      simp only [addsFor, ha, Option.map_some', Option.some_bind]
      rw [ih (applyB f a)]
      cases hb : addsFor fs r rest with
      | none => rfl
      | some b => simp [applyB_applyB]

theorem set_meta_informations_applyB (f : Function) (fs : List Function)
    (r : Registry) :
    set_meta_informations f fs r =
      Option.map (applyB f) (addsFor fs r f.statements) :=
  foldlM_step_applyB fs r f.statements f

/-! ### The classifier's additions are order-preserving subsequences -/

theorem subB_emptyB (l : List SierraStatement) : subB emptyB l := by
  simp [subB, emptyB]

theorem subB_pushAdds (t : Ty) (n : String) (s : SierraStatement) :
    subB (pushAdds t n s) [s] := by
  have h0 := subB_emptyB [s]
  cases t <;> simp only [pushAdds] <;> (try split) <;> (try split) <;>
    simp_all [subB, emptyB]

theorem searchAdds_subB (s : SierraStatement) (callee : Option String) :
    ∀ (l : List Function) (a : Buckets),
      searchAdds s callee l = some a → subB a [s] := by
  intro l
  induction l with
  | nil =>
    intro a h
    cases h
    exact subB_emptyB [s]
  | cons fn rest ih =>
    intro a h
    cases callee with
    | none => cases h
    | some n =>
      by_cases hn : fn.name = n
      · simp only [searchAdds, if_pos hn] at h
        cases hty : fn.ty with
        | none => rw [hty] at h; cases h
        | some t => rw [hty] at h; cases h; exact subB_pushAdds t fn.name s
      · simp only [searchAdds, if_neg hn] at h
        exact ih a h

theorem stepAdds_subB (fs : List Function) (r : Registry) (s : SierraStatement)
    (a : Buckets) (h : stepAdds fs r s = some a) : subB a [s] := by
  cases s with
  | ret => cases h; exact subB_emptyB _
  | invocation invoc =>
    simp only [stepAdds] at h
    cases hl : getLibfunc r invoc.libfunc_id with
    | none => rw [hl] at h; cases h
    | some lf =>
      rw [hl] at h
      cases lf with
      | Other => cases h; exact subB_emptyB _
      | FunctionCall callee => exact searchAdds_subB _ callee fs a h

theorem subB_appendB (a b : Buckets) (s : SierraStatement) (l : List SierraStatement)
    (ha : subB a [s]) (hb : subB b l) : subB (appendB a b) (s :: l) := by
  obtain ⟨a1, a2, a3, a4, a5, a6, a7⟩ := ha
  obtain ⟨b1, b2, b3, b4, b5, b6, b7⟩ := hb
  exact ⟨a1.append b1, a2.append b2, a3.append b3, a4.append b4, a5.append b5,
    a6.append b6, a7.append b7⟩

theorem addsFor_subB (fs : List Function) (r : Registry) :
    ∀ (l : List SierraStatement) (B : Buckets),
      addsFor fs r l = some B → subB B l := by
  intro l
  induction l with
  | nil => intro B h; cases h; exact subB_emptyB []
  | cons s rest ih =>
    intro B h
    simp only [addsFor] at h
    cases ha : stepAdds fs r s with
    | none => rw [ha] at h; cases h
    | some a =>
      rw [ha] at h
      cases hb : addsFor fs r rest with
      | none => rw [hb] at h; cases h
      | some b =>
        rw [hb] at h
        cases h
        exact subB_appendB a b s rest (stepAdds_subB fs r s a ha) (ih b hb)

/-! ### Signature filtering evaluates to List.filter when all types are named -/

theorem filterRets_all_some :
    ∀ (l : List ConcreteTypeId), (∀ x ∈ l, x.debug_name.isSome) →
      filterRets l = some (l.filter
        (fun x => !(BUILTINS.contains (x.debug_name.getD "")))) := by
  intro l
  induction l with
  | nil => intro _; rfl
  | cons x rest ih =>
    intro hall
    obtain ⟨n, hn⟩ := Option.isSome_iff_exists.mp (hall x (by simp))
    have hrest := ih (fun y hy => hall y (by simp [hy]))
    simp only [filterRets, hn, hrest, List.filter_cons, Option.getD_some]
    by_cases hb : BUILTINS.contains n
    · simp [hb]
    · simp [hb]

theorem filterParams_all_some :
    ∀ (l : List Param), (∀ p ∈ l, p.ty.debug_name.isSome) →
      filterParams l = some (l.filter
        (fun p => !(BUILTINS.contains (p.ty.debug_name.getD "")))) := by
  intro l
  induction l with
  | nil => intro _; rfl
  | cons p rest ih =>
    intro hall
    obtain ⟨n, hn⟩ := Option.isSome_iff_exists.mp (hall p (by simp))
    have hrest := ih (fun q hq => hall q (by simp [hq]))
    simp only [filterParams, hn, hrest, List.filter_cons, Option.getD_some]
    by_cases hb : BUILTINS.contains n
    · simp [hb]
    · simp [hb]

/-! ### Claim theorems: program model -/

/-- C6: querying the role fails fatally exactly when the role has not been
assigned; once assigned (in particular right after `set_ty`), the query
returns the assigned role without failure. -/
theorem ty_query_spec (f : Function) :
    (f.ty = none → getTy f = none) ∧
    (∀ t, f.ty = some t → getTy f = some t) ∧
    (∀ t, getTy (set_ty f t) = some t) :=
  ⟨fun h => h, fun _ h => h, fun _ => rfl⟩

/-- Witness for C6 at concrete functions. -/
theorem ty_query_spec_witness :
    getTy fFresh = none ∧ getTy fPrivW = some Ty.Private ∧
    getTy (set_ty fFresh Ty.Core) = some Ty.Core :=
  ⟨(ty_query_spec fFresh).1 rfl, (ty_query_spec fPrivW).2.1 Ty.Private rfl,
   (ty_query_spec fFresh).2.2 Ty.Core⟩

/-- C5 counterexample: after `set_ty` has assigned `External`, a later
`set_ty` call changes the observed role to `Private`: the role is not
settable exactly once. -/
theorem set_ty_overwrite_cex :
    getTy (set_ty fFresh Ty.External) = some Ty.External ∧
    getTy (set_ty (set_ty fFresh Ty.External) Ty.Private) = some Ty.Private ∧
    (some Ty.Private : Option Ty) ≠ some Ty.External :=
  ⟨rfl, rfl, by decide⟩

/-- C5 amended: `set_ty` assigns the role, overwriting any earlier assignment
(write-once is an unenforced protocol obligation of the privileged caller);
no other program-model operation (`set_meta_informations`, `run_analyses`)
changes an assigned role. -/
theorem role_assignment_spec (f : Function) (t : Ty) (fs : List Function)
    (r : Registry) :
    getTy (set_ty f t) = some t ∧
    (∀ g, set_meta_informations f fs r = some g → g.ty = f.ty) ∧
    (∀ g, run_analyses f fs r = some g → g.ty = f.ty) := by
  refine ⟨rfl, ?_, ?_⟩
  · intro g hg
    rw [set_meta_informations_applyB] at hg
    cases ha : addsFor fs r f.statements with
    | none => rw [ha] at hg; cases hg
    | some a =>
      rw [ha, Option.map_some'] at hg
      cases hg
      rfl
  · intro g hg
    cases hty : f.ty with
    | none => simp only [run_analyses, hty] at hg; exact Option.noConfusion hg
    | some t' =>
      simp only [run_analyses, hty] at hg
      by_cases he : t' = Ty.External
      · rw [if_pos he] at hg; cases hg; rfl
      · rw [if_neg he] at hg; cases hg; exact hty

/-- Witness for C5's amended claim at concrete inputs. -/
theorem role_assignment_spec_witness :
    getTy (set_ty fFresh Ty.View) = some Ty.View ∧
    fFresh.ty = fFresh.ty ∧ fPrivW.ty = fPrivW.ty :=
  ⟨(role_assignment_spec fFresh Ty.View [] []).1,
   (role_assignment_spec fFresh Ty.View [] []).2.1 fFresh (by decide),
   (role_assignment_spec fPrivW Ty.View progFns regW).2.2 fPrivW (by decide)⟩

/-- C10: `get_statements_at` returns exactly the suffix of the statement list
starting at the given index when it is at most the length (empty at the
length), and fails fatally for any strictly larger index. -/
theorem get_statements_at_spec (f : Function) (i : Nat) :
    (i ≤ f.statements.length →
      get_statements_at f i = some (List.drop i f.statements)) ∧
    (f.statements.length < i → get_statements_at f i = none) := by
  constructor
  · intro h; simp [get_statements_at, h]
  · intro h; simp only [get_statements_at, if_neg (Nat.not_le.mpr h)]

/-- Witness for C10: an in-range suffix and an out-of-range failure. -/
theorem get_statements_at_spec_witness :
    get_statements_at fExtW 1 = some [sWrite] ∧ get_statements_at fExtW 3 = none := by
  constructor
  · rw [(get_statements_at_spec fExtW 1).1 (by decide)]; decide
  · exact (get_statements_at_spec fExtW 3).2 (by decide)

/-- C8: with every declared type named, the filtered return and parameter
sequences are exactly the unfiltered sequences with the entries whose declared
type name is in `BUILTINS` removed, preserving the order of the rest. -/
theorem filtered_signature_spec (f : Function)
    (hr : ∀ x ∈ returns_all f, x.debug_name.isSome)
    (hp : ∀ p ∈ params_all f, p.ty.debug_name.isSome) :
    returns f = some ((returns_all f).filter
      (fun x => !(BUILTINS.contains (x.debug_name.getD "")))) ∧
    params f = some ((params_all f).filter
      (fun p => !(BUILTINS.contains (p.ty.debug_name.getD "")))) :=
  ⟨filterRets_all_some (returns_all f) hr, filterParams_all_some (params_all f) hp⟩

/-- Witness for C8 on a function with builtin and non-builtin entries. -/
theorem filtered_signature_spec_witness :
    returns fSig = some [{ debug_name := some "felt252" }] ∧
    params fSig = some [{ ty := { debug_name := some "u256" } }] := by
  have h := filtered_signature_spec fSig (by decide) (by decide)
  constructor
  · rw [h.1]; decide
  · rw [h.2]; decide

/-! ### Claim theorems: call classifier -/

/-- C3: an invocation resolving to a call of a `Storage`-role program function
is put into storage-reads when the callee's name ends in `read`, into
storage-writes when it ends in `write`, and into no bucket otherwise. -/
theorem storage_classification (fs1 fs2 : List Function) (r : Registry)
    (f fn : Function) (invoc : Invocation) (n : String)
    (hlib : getLibfunc r invoc.libfunc_id =
      some (CoreConcreteLibfunc.FunctionCall (some n)))
    (hmiss : ∀ g ∈ fs1, g.name ≠ n) (hname : fn.name = n)
    (hty : fn.ty = some Ty.Storage) :
    (ends_with fn.name "read" = true →
      set_meta_step (fs1 ++ fn :: fs2) r f (SierraStatement.invocation invoc) =
        some { f with storage_vars_read :=
          f.storage_vars_read ++ [SierraStatement.invocation invoc] }) ∧
    (ends_with fn.name "write" = true →
      set_meta_step (fs1 ++ fn :: fs2) r f (SierraStatement.invocation invoc) =
        some { f with storage_vars_written :=
          f.storage_vars_written ++ [SierraStatement.invocation invoc] }) ∧
    (ends_with fn.name "read" = false → ends_with fn.name "write" = false →
      set_meta_step (fs1 ++ fn :: fs2) r f (SierraStatement.invocation invoc) =
        some f) := by
  have hstep : set_meta_step (fs1 ++ fn :: fs2) r f (SierraStatement.invocation invoc) =
      some (pushBucket f Ty.Storage fn.name (SierraStatement.invocation invoc)) := by
    simp only [set_meta_step, hlib]
    exact searchFunctions_first_match f _ fs1 fs2 fn n Ty.Storage hmiss hname hty
  refine ⟨?_, ?_, ?_⟩
  · intro h1
    rw [hstep]
    simp [pushBucket, h1]
  · intro h2
    have h1 := ends_with_write_not_read fn.name h2
    rw [hstep]
    simp [pushBucket, h1, h2]
  · intro h1 h2
    rw [hstep]
    simp [pushBucket, h1, h2]

/-- Witness for C3: a call of `balance::read` lands in storage-reads. -/
theorem storage_classification_witness :
    set_meta_step progFns regW fFresh sRead =
      some { fFresh with storage_vars_read :=
        fFresh.storage_vars_read ++ [sRead] } := by
  have h := storage_classification [calleeAbi, calleeWrite] [calleeCore] regW
    fFresh calleeRead { libfunc_id := "call_read" } "balance::read"
    (by decide) (by decide) rfl rfl
  exact h.1 (by decide)

/-- C4: the classifier resolves a called program function by exact name match
against the whole-program list and classifies by the role of the first match
in list order, unaffected by any later function sharing that name. -/
theorem first_match_classification (fs1 fs2 : List Function) (r : Registry)
    (f fn : Function) (invoc : Invocation) (n : String) (t : Ty)
    (hlib : getLibfunc r invoc.libfunc_id =
      some (CoreConcreteLibfunc.FunctionCall (some n)))
    (hmiss : ∀ g ∈ fs1, g.name ≠ n) (hname : fn.name = n) (hty : fn.ty = some t) :
    set_meta_step (fs1 ++ fn :: fs2) r f (SierraStatement.invocation invoc) =
      some (pushBucket f t fn.name (SierraStatement.invocation invoc)) := by
  simp only [set_meta_step, hlib]
  exact searchFunctions_first_match f _ fs1 fs2 fn n t hmiss hname hty

/-- Witness for C4: two functions named `X` (Storage first, Core later); the
classifier uses the first match. -/
theorem first_match_classification_witness :
    set_meta_step progX regX fFresh sX =
      some (pushBucket fFresh Ty.Storage (Function.name fnXStorage) sX) :=
  first_match_classification [] [fnXCore] regX fFresh fnXStorage
    { libfunc_id := "call_x" } "X" Ty.Storage (by decide) (by decide) rfl rfl

/-- C9: a program-function call whose callee name matches no function in the
whole-program list leaves the function (hence every bucket) unchanged and
completes without failure. -/
theorem unresolved_call_uncategorized (fs : List Function) (r : Registry)
    (f : Function) (invoc : Invocation) (n : String)
    (hlib : getLibfunc r invoc.libfunc_id =
      some (CoreConcreteLibfunc.FunctionCall (some n)))
    (hmiss : ∀ g ∈ fs, g.name ≠ n) :
    set_meta_step fs r f (SierraStatement.invocation invoc) = some f := by
  simp only [set_meta_step, hlib]
  exact searchFunctions_no_match f _ fs n hmiss

/-- Witness for C9: the unresolvable call site `missing_fn`. -/
theorem unresolved_call_uncategorized_witness :
    set_meta_step progFns regW fFresh sUnknown = some fFresh :=
  unresolved_call_uncategorized progFns regW fFresh
    { libfunc_id := "call_unknown" } "missing_fn" (by decide) (by decide)

/-- C7 counterexample: the first classifier run on `fTwice` stores one
storage write; a second run on the same (now already classified) function
appends it again, so the buckets after the second run are not identical to
the first run's. -/
theorem classifier_rerun_cex :
    set_meta_informations fTwice progFns regW = some gOnce ∧
    set_meta_informations gOnce progFns regW = some gTwiceR ∧
    gTwiceR.storage_vars_written ≠ gOnce.storage_vars_written :=
  ⟨by decide, by decide, by decide⟩

/-- C7 amended: the classifier's buckets are append-only: a second run on the
already-classified function appends the same additions again, so from empty
buckets each bucket after the second run equals the first run's bucket
concatenated with itself (two runs from the same pristine state coincide,
the pass being a pure function of its inputs); each first-run bucket is an
order-preserving subsequence of the function's original statements. -/
theorem classifier_rerun_spec (f g h : Function) (fs : List Function)
    (r : Registry) (h0 : bucketsOf f = emptyB)
    (h1 : set_meta_informations f fs r = some g)
    (h2 : set_meta_informations g fs r = some h) :
    bucketsOf h = appendB (bucketsOf g) (bucketsOf g) ∧
    subB (bucketsOf g) f.statements := by
  rw [set_meta_informations_applyB] at h1 h2
  cases ha : addsFor fs r f.statements with
  | none => rw [ha] at h1; cases h1
  | some B =>
    rw [ha, Option.map_some'] at h1
    cases h1
    have hstmts : (applyB f B).statements = f.statements := rfl
    rw [hstmts, ha, Option.map_some'] at h2
    cases h2
    have hbg : bucketsOf (applyB f B) = B := by
      rw [bucketsOf_applyB, h0, appendB_emptyB]
    constructor
    · calc bucketsOf (applyB (applyB f B) B)
          = appendB (bucketsOf (applyB f B)) B := bucketsOf_applyB _ _
        _ = appendB B B := by rw [hbg]
        _ = appendB (bucketsOf (applyB f B)) (bucketsOf (applyB f B)) := by rw [hbg]
    · rw [hbg]
      exact addsFor_subB fs r f.statements B ha

/-- Witness for C7's amended claim on the concrete rerun. -/
theorem classifier_rerun_spec_witness :
    bucketsOf gTwiceR = appendB (bucketsOf gOnce) (bucketsOf gOnce) ∧
    subB (bucketsOf gOnce) fTwice.statements :=
  classifier_rerun_spec fTwice gOnce gTwiceR progFns regW
    (by decide) (by decide) (by decide)

/-- C1: `run_analyses` is a no-op for any assigned non-`External` role, and
for `External` stores the engine's per-block reentrancy state map computed
over the function's already-built CFG. -/
theorem run_analyses_spec (f : Function) (fs : List Function) (r : Registry)
    (t : Ty) (h : f.ty = some t) :
    (t ≠ Ty.External → run_analyses f fs r = some f) ∧
    (t = Ty.External → run_analyses f fs r =
      some { f with analyses :=
        { reentrancy := engineResult fs r f.cfg_regular } }) := by
  constructor <;> intro ht <;> simp [run_analyses, h, ht]

/-- Witness for C1: a `Private` function is untouched; an `External` function
receives the engine's map. -/
theorem run_analyses_spec_witness :
    run_analyses fPrivW progFns regW = some fPrivW ∧
    run_analyses fExtW progFns regW =
      some { fExtW with analyses :=
        { reentrancy := engineResult progFns regW fExtW.cfg_regular } } :=
  ⟨(run_analyses_spec fPrivW progFns regW Ty.Private rfl).1 (by decide),
   (run_analyses_spec fExtW progFns regW Ty.External rfl).2 rfl⟩


/-! ### Reentrancy lattice lemmas -/

theorem stLe_refl (a : ReentrancyState) : stLe a a := Nat.le_refl _

theorem stLe_trans {a b c : ReentrancyState} (h1 : stLe a b) (h2 : stLe b c) :
    stLe a c := Nat.le_trans h1 h2

theorem stLe_top_eq_all : ∀ a : ReentrancyState,
    stLe ReentrancyState.WriteAfterCall a → a = ReentrancyState.WriteAfterCall := by
  decide

theorem stLe_top_eq {a : ReentrancyState}
    (h : stLe ReentrancyState.WriteAfterCall a) : a = ReentrancyState.WriteAfterCall :=
  stLe_top_eq_all a h

theorem stLe_join_left : ∀ a b : ReentrancyState, stLe a (join a b) := by decide

theorem stLe_join_right : ∀ a b : ReentrancyState, stLe b (join a b) := by decide

/-! ### Call-progress-level lemmas -/

theorem lvl_le_three : ∀ a : ReentrancyState, lvl a ≤ 3 := by decide

theorem lvlLe_refl (a : ReentrancyState) : lvlLe a a := Nat.le_refl _

theorem lvlLe_trans {a b c : ReentrancyState} (h1 : lvlLe a b) (h2 : lvlLe b c) :
    lvlLe a c := Nat.le_trans h1 h2

theorem lvl_initState (cfg : CfgRegular) (b : Nat) : lvl (initState cfg b) = 0 := by
  unfold initState
  split <;> rfl

theorem lvl_top_eq : ∀ a : ReentrancyState,
    lvlLe ReentrancyState.WriteAfterCall a → a = ReentrancyState.WriteAfterCall := by
  decide

theorem lvlLe_join_left : ∀ a b : ReentrancyState, lvlLe a (join a b) := by decide

theorem lvlLe_join_right : ∀ a b : ReentrancyState, lvlLe b (join a b) := by decide

theorem lvl_join_mono : ∀ a a' b b' : ReentrancyState,
    lvlLe a a' → lvlLe b b' → lvlLe (join a b) (join a' b') := by decide

theorem lvl_join_congr : ∀ a a' b b' : ReentrancyState,
    lvl a = lvl a' → lvl b = lvl b' → lvl (join a b) = lvl (join a' b') := by decide

/-! ### Transfer-function lemmas -/

theorem transfer_extensive (fs : List Function) (r : Registry) (s : SierraStatement) :
    ∀ st, stLe st (transfer fs r st s) := by
  by_cases h1 : isInterfaceCall fs r s = true
  · intro st
    simp only [transfer, h1, if_true]
    exact stLe_join_left st _
  · have h1' : isInterfaceCall fs r s = false := eq_false_of_ne_true h1
    by_cases h2 : isStorageWriteCall fs r s = true
    · simp only [transfer, h1', h2, Bool.false_eq_true, if_false, if_true]
      decide
    · have h2' : isStorageWriteCall fs r s = false := eq_false_of_ne_true h2
      simp only [transfer, h1', h2', Bool.false_eq_true, if_false]
      exact stLe_refl

theorem foldl_transfer_extensive (fs : List Function) (r : Registry) :
    ∀ (l : List SierraStatement) (st), stLe st (List.foldl (transfer fs r) st l) := by
  intro l
  induction l with
  | nil => intro st; exact stLe_refl st
  | cons s rest ih =>
    intro st
    exact stLe_trans (transfer_extensive fs r s st) (ih (transfer fs r st s))

theorem foldl_transfer_top (fs : List Function) (r : Registry) (l : List SierraStatement) :
    List.foldl (transfer fs r) ReentrancyState.WriteAfterCall l =
      ReentrancyState.WriteAfterCall :=
  stLe_top_eq (foldl_transfer_extensive fs r l _)

theorem write_not_interface (fs : List Function) (r : Registry) (s : SierraStatement)
    (h : isStorageWriteCall fs r s = true) : isInterfaceCall fs r s = false := by
  unfold isStorageWriteCall at h
  unfold isInterfaceCall
  cases hr : resolveCallee fs r s with
  | none => rfl
  | some fn =>
    rw [hr] at h
    simp only [Bool.and_eq_true, decide_eq_true_eq] at h
    simp [h.1]

theorem foldl_transfer_pattern (fs : List Function) (r : Registry)
    (l1 l2 l3 : List SierraStatement) (sc sw : SierraStatement) (st : ReentrancyState)
    (hsc : isInterfaceCall fs r sc = true) (hsw : isStorageWriteCall fs r sw = true) :
    List.foldl (transfer fs r) st (l1 ++ sc :: (l2 ++ sw :: l3)) =
      ReentrancyState.WriteAfterCall := by
  rw [List.foldl_append, List.foldl_cons]
  have hc : transfer fs r (List.foldl (transfer fs r) st l1) sc =
      join (List.foldl (transfer fs r) st l1) ReentrancyState.CallMade := by
    simp only [transfer, hsc, if_true]
  rw [hc, List.foldl_append, List.foldl_cons]
  have h2 : stLe ReentrancyState.CallMade
      (List.foldl (transfer fs r)
        (join (List.foldl (transfer fs r) st l1) ReentrancyState.CallMade) l2) :=
    stLe_trans (stLe_join_right _ _) (foldl_transfer_extensive fs r l2 _)
  have hw : transfer fs r
      (List.foldl (transfer fs r)
        (join (List.foldl (transfer fs r) st l1) ReentrancyState.CallMade) l2) sw =
      ReentrancyState.WriteAfterCall := by
    have hni := write_not_interface fs r sw hsw
    simp only [transfer, hni, hsw, Bool.false_eq_true, if_false, if_true]
    have h2' : 2 ≤ rank (List.foldl (transfer fs r)
        (join (List.foldl (transfer fs r) st l1) ReentrancyState.CallMade) l2) := h2
    rw [if_pos h2']
  rw [hw]
  exact foldl_transfer_top fs r l3

theorem transfer_lvl_extensive (fs : List Function) (r : Registry) (s : SierraStatement) :
    ∀ st, lvlLe st (transfer fs r st s) := by
  by_cases h1 : isInterfaceCall fs r s = true
  · intro st
    simp only [transfer, h1, if_true]
    exact lvlLe_join_left st _
  · have h1' : isInterfaceCall fs r s = false := eq_false_of_ne_true h1
    by_cases h2 : isStorageWriteCall fs r s = true
    · simp only [transfer, h1', h2, Bool.false_eq_true, if_false, if_true]
      decide
    · have h2' : isStorageWriteCall fs r s = false := eq_false_of_ne_true h2
      simp only [transfer, h1', h2', Bool.false_eq_true, if_false]
      exact lvlLe_refl

theorem transfer_lvl_mono (fs : List Function) (r : Registry) (s : SierraStatement) :
    ∀ st st', lvlLe st st' → lvlLe (transfer fs r st s) (transfer fs r st' s) := by
  by_cases h1 : isInterfaceCall fs r s = true
  · intro st st' h
    simp only [transfer, h1, if_true]
    exact lvl_join_mono _ _ _ _ h (lvlLe_refl _)
  · have h1' : isInterfaceCall fs r s = false := eq_false_of_ne_true h1
    by_cases h2 : isStorageWriteCall fs r s = true
    · simp only [transfer, h1', h2, Bool.false_eq_true, if_false, if_true]
      decide
    · have h2' : isStorageWriteCall fs r s = false := eq_false_of_ne_true h2
      simp only [transfer, h1', h2', Bool.false_eq_true, if_false]
      exact fun _ _ h => h

theorem transfer_lvl_congr (fs : List Function) (r : Registry) (s : SierraStatement) :
    ∀ st st', lvl st = lvl st' → lvl (transfer fs r st s) = lvl (transfer fs r st' s) := by
  by_cases h1 : isInterfaceCall fs r s = true
  · intro st st' h
    simp only [transfer, h1, if_true]
    exact lvl_join_congr _ _ _ _ h rfl
  · have h1' : isInterfaceCall fs r s = false := eq_false_of_ne_true h1
    by_cases h2 : isStorageWriteCall fs r s = true
    · simp only [transfer, h1', h2, Bool.false_eq_true, if_false, if_true]
      decide
    · have h2' : isStorageWriteCall fs r s = false := eq_false_of_ne_true h2
      simp only [transfer, h1', h2', Bool.false_eq_true, if_false]
      exact fun _ _ h => h

theorem foldl_transfer_lvl_extensive (fs : List Function) (r : Registry) :
    ∀ (l : List SierraStatement) (st), lvlLe st (List.foldl (transfer fs r) st l) := by
  intro l
  induction l with
  | nil => intro st; exact lvlLe_refl st
  | cons s rest ih =>
    intro st
    exact lvlLe_trans (transfer_lvl_extensive fs r s st) (ih (transfer fs r st s))

theorem foldl_transfer_lvl_mono (fs : List Function) (r : Registry) :
    ∀ (l : List SierraStatement) (st st'), lvlLe st st' →
      lvlLe (List.foldl (transfer fs r) st l) (List.foldl (transfer fs r) st' l) := by
  intro l
  induction l with
  | nil => intro st st' h; exact h
  | cons s rest ih =>
    intro st st' h
    exact ih _ _ (transfer_lvl_mono fs r s st st' h)

theorem foldl_transfer_lvl_congr (fs : List Function) (r : Registry) :
    ∀ (l : List SierraStatement) (st st'), lvl st = lvl st' →
      lvl (List.foldl (transfer fs r) st l) = lvl (List.foldl (transfer fs r) st' l) := by
  intro l
  induction l with
  | nil => intro st st' h; exact h
  | cons s rest ih =>
    intro st st' h
    exact ih _ _ (transfer_lvl_congr fs r s st st' h)

/-! ### Chaotic-iteration lemmas -/

theorem step_not_block (fs : List Function) (r : Registry) (cfg : CfgRegular)
    (σ : Nat → ReentrancyState) (b : Nat) (h : findBlock cfg b = none) :
    step fs r cfg σ b = σ b := by
  simp [step, h]

theorem foldl_join_lvl_extensive :
    ∀ (l : List ReentrancyState) (acc), lvlLe acc (List.foldl join acc l) := by
  intro l
  induction l with
  | nil => intro acc; exact lvlLe_refl acc
  | cons x rest ih =>
    intro acc
    exact lvlLe_trans (lvlLe_join_left acc x) (ih (join acc x))

theorem foldl_join_lvl_le_mem :
    ∀ (l : List ReentrancyState) (acc a), a ∈ l → lvlLe a (List.foldl join acc l) := by
  intro l
  induction l with
  | nil => intro acc a h; cases h
  | cons x rest ih =>
    intro acc a h
    rcases List.mem_cons.mp h with h | h
    · subst h
      exact lvlLe_trans (lvlLe_join_right acc a) (foldl_join_lvl_extensive rest (join acc a))
    · exact ih (join acc x) a h

theorem foldl_join_lvl_mono_map (σ σ' : Nat → ReentrancyState)
    (hσ : ∀ b, lvlLe (σ b) (σ' b)) :
    ∀ (ps : List BasicBlock) (acc acc'), lvlLe acc acc' →
      lvlLe (List.foldl join acc (ps.map (fun bb => σ bb.id)))
           (List.foldl join acc' (ps.map (fun bb => σ' bb.id))) := by
  intro ps
  induction ps with
  | nil => intro acc acc' h; exact h
  | cons p rest ih =>
    intro acc acc' h
    exact ih _ _ (lvl_join_mono _ _ _ _ h (hσ p.id))

theorem foldl_join_lvl_congr_map (σ σ' : Nat → ReentrancyState)
    (hσ : ∀ b, lvl (σ b) = lvl (σ' b)) :
    ∀ (ps : List BasicBlock) (acc acc'), lvl acc = lvl acc' →
      lvl (List.foldl join acc (ps.map (fun bb => σ bb.id))) =
        lvl (List.foldl join acc' (ps.map (fun bb => σ' bb.id))) := by
  intro ps
  induction ps with
  | nil => intro acc acc' h; exact h
  | cons p rest ih =>
    intro acc acc' h
    exact ih _ _ (lvl_join_congr _ _ _ _ h (hσ p.id))

theorem inState_lvl_mono (cfg : CfgRegular) (σ σ' : Nat → ReentrancyState)
    (hσ : ∀ b, lvlLe (σ b) (σ' b)) (b : Nat) :
    lvlLe (inState cfg σ b) (inState cfg σ' b) := by
  cases hp : predsOf cfg b with
  | nil => simp only [inState, hp]; exact lvlLe_refl _
  | cons p rest =>
    simp only [inState, hp, joinList]
    exact foldl_join_lvl_mono_map σ σ' hσ (p :: rest) _ _ (lvlLe_refl _)

theorem inState_lvl_congr (cfg : CfgRegular) (σ σ' : Nat → ReentrancyState)
    (hσ : ∀ b, lvl (σ b) = lvl (σ' b)) (b : Nat) :
    lvl (inState cfg σ b) = lvl (inState cfg σ' b) := by
  cases hp : predsOf cfg b with
  | nil => simp only [inState, hp]
  | cons p rest =>
    simp only [inState, hp, joinList]
    exact foldl_join_lvl_congr_map σ σ' hσ (p :: rest) _ _ rfl

theorem inState_lvl_ge_pred (cfg : CfgRegular) (σ : Nat → ReentrancyState) (a b : Nat)
    (bb : BasicBlock) (hfb : findBlock cfg a = some bb) (hout : b ∈ bb.outgoing) :
    lvlLe (σ a) (inState cfg σ b) := by
  have hmem : bb ∈ cfg.basic_blocks := List.mem_of_find?_eq_some hfb
  have hid : bb.id = a := by simpa using List.find?_some hfb
  have hpred : bb ∈ predsOf cfg b := by
    simp [predsOf, List.mem_filter, hmem, hout]
  cases hp : predsOf cfg b with
  | nil => rw [hp] at hpred; cases hpred
  | cons p rest =>
    rw [hp] at hpred
    simp only [inState, hp, joinList]
    have hmap : σ a ∈ (p :: rest).map (fun bb => σ bb.id) := by
      rw [← hid]
      exact List.mem_map_of_mem _ hpred
    exact foldl_join_lvl_le_mem _ _ _ hmap

theorem step_lvl_mono (fs : List Function) (r : Registry) (cfg : CfgRegular)
    (σ σ' : Nat → ReentrancyState) (hσ : ∀ b, lvlLe (σ b) (σ' b)) :
    ∀ b, lvlLe (step fs r cfg σ b) (step fs r cfg σ' b) := by
  intro b
  cases hfb : findBlock cfg b with
  | none => simp only [step, hfb]; exact hσ b
  | some bb =>
    simp only [step, hfb]
    exact foldl_transfer_lvl_mono fs r bb.instructions _ _ (inState_lvl_mono cfg σ σ' hσ b)

theorem step_lvl_congr (fs : List Function) (r : Registry) (cfg : CfgRegular)
    (σ σ' : Nat → ReentrancyState) (hσ : ∀ b, lvl (σ b) = lvl (σ' b)) :
    ∀ b, lvl (step fs r cfg σ b) = lvl (step fs r cfg σ' b) := by
  intro b
  cases hfb : findBlock cfg b with
  | none => simp only [step, hfb]; exact hσ b
  | some bb =>
    simp only [step, hfb]
    exact foldl_transfer_lvl_congr fs r bb.instructions _ _ (inState_lvl_congr cfg σ σ' hσ b)

theorem engineIter_lvl_step (fs : List Function) (r : Registry) (cfg : CfgRegular) :
    ∀ k b, lvlLe (engineIter fs r cfg k b) (engineIter fs r cfg (k + 1) b) := by
  intro k
  induction k with
  | zero =>
    intro b
    show lvl (initState cfg b) ≤ _
    rw [lvl_initState]
    exact Nat.zero_le _
  | succ n ih => exact step_lvl_mono fs r cfg _ _ ih

theorem engineIter_lvl_mono (fs : List Function) (r : Registry) (cfg : CfgRegular) :
    ∀ j k, j ≤ k → ∀ b, lvlLe (engineIter fs r cfg j b) (engineIter fs r cfg k b) := by
  intro j k h b
  induction h with
  | refl => exact lvlLe_refl _
  | step h ih => exact lvlLe_trans ih (engineIter_lvl_step fs r cfg _ b)

theorem sumLvl_lt (blocks : List BasicBlock) (σ σ' : Nat → ReentrancyState)
    (hle : ∀ b, lvlLe (σ b) (σ' b)) (bb : BasicBlock) (hmem : bb ∈ blocks)
    (hne : lvl (σ bb.id) ≠ lvl (σ' bb.id)) :
    (blocks.map (fun c => lvl (σ c.id))).sum <
      (blocks.map (fun c => lvl (σ' c.id))).sum := by
  apply List.sum_lt_sum
  · intro c _; exact hle c.id
  · exact ⟨bb, hmem, lt_of_le_of_ne (hle bb.id) hne⟩

theorem sumLvl_le (blocks : List BasicBlock) (σ : Nat → ReentrancyState) :
    (blocks.map (fun c => lvl (σ c.id))).sum ≤ 3 * blocks.length := by
  have h := List.sum_le_card_nsmul (blocks.map (fun c => lvl (σ c.id))) 3 ?_
  · simpa [Nat.mul_comm] using h
  · intro x hx
    obtain ⟨c, _, hc⟩ := List.mem_map.mp hx
    rw [← hc]
    exact lvl_le_three _

theorem step_lvl_ne_exists_block (fs : List Function) (r : Registry) (cfg : CfgRegular)
    (σ : Nat → ReentrancyState) (hne : ∃ b, lvl (step fs r cfg σ b) ≠ lvl (σ b)) :
    ∃ bb ∈ cfg.basic_blocks, lvl (step fs r cfg σ bb.id) ≠ lvl (σ bb.id) := by
  obtain ⟨b, hb⟩ := hne
  cases hfb : findBlock cfg b with
  | none =>
    rw [step_not_block fs r cfg σ b hfb] at hb
    exact absurd rfl hb
  | some bb =>
    have hmem := List.mem_of_find?_eq_some hfb
    have hid : bb.id = b := by simpa using List.find?_some hfb
    subst hid
    exact ⟨bb, hmem, hb⟩

theorem engine_lvl_stabilizes (fs : List Function) (r : Registry) (cfg : CfgRegular) :
    ∃ k ≤ 3 * cfg.basic_blocks.length,
      ∀ b, lvl (engineIter fs r cfg (k + 1) b) = lvl (engineIter fs r cfg k b) := by
  by_contra hnone
  push_neg at hnone
  have key : ∀ k, k ≤ 3 * cfg.basic_blocks.length + 1 →
      k ≤ (cfg.basic_blocks.map (fun c => lvl (engineIter fs r cfg k c.id))).sum := by
    intro k
    induction k with
    | zero => intro _; exact Nat.zero_le _
    | succ m ih =>
      intro hm
      have h1 := ih (by omega)
      obtain ⟨b, hb⟩ := hnone m (by omega)
      obtain ⟨bb, hmem, hneq⟩ := step_lvl_ne_exists_block fs r cfg _ ⟨b, hb⟩
      have hlt := sumLvl_lt cfg.basic_blocks (engineIter fs r cfg m)
        (engineIter fs r cfg (m + 1)) (engineIter_lvl_step fs r cfg m)
        bb hmem (fun h => hneq h.symm)
      omega
  have hbig := key (3 * cfg.basic_blocks.length + 1) (Nat.le_refl _)
  have hbound := sumLvl_le cfg.basic_blocks
    (engineIter fs r cfg (3 * cfg.basic_blocks.length + 1))
  omega

theorem engineIter_lvl_const (fs : List Function) (r : Registry) (cfg : CfgRegular)
    (k : Nat)
    (hfix : ∀ b, lvl (engineIter fs r cfg (k + 1) b) = lvl (engineIter fs r cfg k b)) :
    ∀ j b, lvl (engineIter fs r cfg (k + j) b) = lvl (engineIter fs r cfg k b) := by
  intro j
  induction j with
  | zero => intro b; rfl
  | succ m ih =>
    intro b
    calc lvl (engineIter fs r cfg (k + (m + 1)) b)
        = lvl (step fs r cfg (engineIter fs r cfg k) b) :=
          step_lvl_congr fs r cfg (engineIter fs r cfg (k + m)) (engineIter fs r cfg k) ih b
      _ = lvl (engineIter fs r cfg k b) := hfix b

theorem engineIter_lvl_le_final (fs : List Function) (r : Registry) (cfg : CfgRegular) :
    ∀ j b, lvlLe (engineIter fs r cfg j b)
      (engineIter fs r cfg (engineFuel cfg) b) := by
  obtain ⟨k, hk, hfix⟩ := engine_lvl_stabilizes fs r cfg
  intro j b
  by_cases hj : j ≤ engineFuel cfg
  · exact engineIter_lvl_mono fs r cfg j (engineFuel cfg) hj b
  · have hje : k + (j - k) = j := by
      unfold engineFuel at hj
      omega
    have hfe : k + (engineFuel cfg - k) = engineFuel cfg := by
      unfold engineFuel
      omega
    have h1 := engineIter_lvl_const fs r cfg k hfix (j - k) b
    have h2 := engineIter_lvl_const fs r cfg k hfix (engineFuel cfg - k) b
    rw [hje] at h1
    rw [hfe] at h2
    show lvl (engineIter fs r cfg j b) ≤ lvl (engineIter fs r cfg (engineFuel cfg) b)
    rw [h1, h2]

/-! ### Path soundness -/

theorem path_bound (fs : List Function) (r : Registry) (cfg : CfgRegular) :
    ∀ (rest : List Nat) (b0 : Nat) (k : Nat) (st : ReentrancyState),
      isPathB cfg (b0 :: rest) = true →
      lvlLe st (inState cfg (engineIter fs r cfg k) b0) →
      lvlLe (List.foldl (transfer fs r) st (pathStmts cfg (b0 :: rest)))
           (engineIter fs r cfg (k + rest.length + 1) (lastOf b0 rest)) := by
  intro rest
  induction rest with
  | nil =>
    intro b0 k st hpath hst
    have hfb : (findBlock cfg b0).isSome := by simpa [isPathB] using hpath
    obtain ⟨bb, hbb⟩ := Option.isSome_iff_exists.mp hfb
    have hps : pathStmts cfg [b0] = bb.instructions := by
      simp [pathStmts, hbb]
    simp only [List.length_nil]
    rw [hps]
    have hstep : engineIter fs r cfg (k + 0 + 1) (lastOf b0 []) =
        blockTransfer fs r (inState cfg (engineIter fs r cfg k) b0) bb.instructions := by
      show step fs r cfg (engineIter fs r cfg k) b0 = _
      simp [step, hbb]
    rw [hstep]
    exact foldl_transfer_lvl_mono fs r bb.instructions _ _ hst
  | cons b1 rest' ih =>
    intro b0 k st hpath hst
    have hsplit : (match findBlock cfg b0 with
        | some bb => bb.outgoing.contains b1
        | none => false) = true ∧ isPathB cfg (b1 :: rest') = true := by
      simpa [isPathB, Bool.and_eq_true] using hpath
    obtain ⟨hedge, hrest⟩ := hsplit
    cases hfb : findBlock cfg b0 with
    | none => rw [hfb] at hedge; cases hedge
    | some bb =>
      rw [hfb] at hedge
      have hout : b1 ∈ bb.outgoing := by simpa using hedge
      have hps : pathStmts cfg (b0 :: b1 :: rest') =
          bb.instructions ++ pathStmts cfg (b1 :: rest') := by
        simp [pathStmts, hfb]
      rw [hps, List.foldl_append]
      have hst1 : lvlLe (List.foldl (transfer fs r) st bb.instructions)
          (engineIter fs r cfg (k + 1) b0) := by
        have hform : engineIter fs r cfg (k + 1) b0 =
            blockTransfer fs r (inState cfg (engineIter fs r cfg k) b0)
              bb.instructions := by
          show step fs r cfg (engineIter fs r cfg k) b0 = _
          simp [step, hfb]
        rw [hform]
        exact foldl_transfer_lvl_mono fs r bb.instructions _ _ hst
      have hst2 : lvlLe (List.foldl (transfer fs r) st bb.instructions)
          (inState cfg (engineIter fs r cfg (k + 1)) b1) :=
        lvlLe_trans hst1 (inState_lvl_ge_pred cfg _ b0 b1 bb hfb hout)
      have hih := ih b1 (k + 1) _ hrest hst2
      have harith : k + 1 + rest'.length + 1 = k + (b1 :: rest').length + 1 := by
        simp only [List.length_cons]
        omega
      rw [harith] at hih
      exact hih

theorem isPathB_last (cfg : CfgRegular) :
    ∀ (rest : List Nat) (b0 : Nat), isPathB cfg (b0 :: rest) = true →
      ∃ bb ∈ cfg.basic_blocks, bb.id = lastOf b0 rest := by
  intro rest
  induction rest with
  | nil =>
    intro b0 hpath
    have hfb : (findBlock cfg b0).isSome := by simpa [isPathB] using hpath
    obtain ⟨bb, hbb⟩ := Option.isSome_iff_exists.mp hfb
    exact ⟨bb, List.mem_of_find?_eq_some hbb, by simpa using List.find?_some hbb⟩
  | cons b1 rest' ih =>
    intro b0 hpath
    have hrest : isPathB cfg (b1 :: rest') = true := by
      have hsplit : (match findBlock cfg b0 with
          | some bb => bb.outgoing.contains b1
          | none => false) = true ∧ isPathB cfg (b1 :: rest') = true := by
        simpa [isPathB, Bool.and_eq_true] using hpath
      exact hsplit.2
    exact ih b1 hrest

/-- C2: for an externally callable function whose CFG has a path from the
entry block on which a classified external-interface call statement is
followed, later in program order along that path, by a classified
storage-write statement, `run_analyses` stores a reentrancy map reporting
`WriteAfterCall` for some block of the function.  (Nothing on the path can
break the pattern: the transfer function never lowers the call-progress
level.) -/
theorem reentrancy_write_after_call_sound
    (f : Function) (fs : List Function) (r : Registry)
    (rest : List Nat) (l1 l2 l3 : List SierraStatement) (sc sw : SierraStatement)
    (hty : f.ty = some Ty.External)
    (hpath : isPathB f.cfg_regular (f.cfg_regular.entry_id :: rest) = true)
    (hdec : pathStmts f.cfg_regular (f.cfg_regular.entry_id :: rest) =
      l1 ++ sc :: (l2 ++ sw :: l3))
    (hsc : isInterfaceCall fs r sc = true)
    (hsw : isStorageWriteCall fs r sw = true) :
    ∃ g, run_analyses f fs r = some g ∧
      ∃ b, (b, ReentrancyState.WriteAfterCall) ∈ g.analyses.reentrancy := by
  have hstart : lvlLe ReentrancyState.Clean
      (inState f.cfg_regular (engineIter fs r f.cfg_regular 0)
        f.cfg_regular.entry_id) :=
    Nat.zero_le _
  have hb := path_bound fs r f.cfg_regular rest f.cfg_regular.entry_id 0
    ReentrancyState.Clean hpath hstart
  rw [hdec, foldl_transfer_pattern fs r l1 l2 l3 sc sw _ hsc hsw] at hb
  have hfin : lvlLe ReentrancyState.WriteAfterCall
      (engineIter fs r f.cfg_regular (engineFuel f.cfg_regular)
        (lastOf f.cfg_regular.entry_id rest)) :=
    lvlLe_trans hb (engineIter_lvl_le_final fs r f.cfg_regular _ _)
  have hWAC := lvl_top_eq _ hfin
  obtain ⟨bb, hmem, hid⟩ := isPathB_last f.cfg_regular rest f.cfg_regular.entry_id hpath
  refine ⟨{ f with analyses :=
    { reentrancy := engineResult fs r f.cfg_regular } }, ?_, bb.id, ?_⟩
  · simp [run_analyses, hty]
  · show (bb.id, ReentrancyState.WriteAfterCall) ∈ engineResult fs r f.cfg_regular
    have hmm : (bb.id, engineStates fs r f.cfg_regular bb.id) ∈
        engineResult fs r f.cfg_regular :=
      List.mem_map_of_mem _ hmem
    have hval : engineStates fs r f.cfg_regular bb.id =
        ReentrancyState.WriteAfterCall := by
      rw [hid]
      exact hWAC
    rw [hval] at hmm
    exact hmm

/-- Witness for C2: the concrete one-block external function whose body is an
external-interface call followed by a storage write. -/
theorem reentrancy_write_after_call_sound_witness :
    ∃ g, run_analyses fExtW progFns regW = some g ∧
      ∃ b, (b, ReentrancyState.WriteAfterCall) ∈ g.analyses.reentrancy :=
  reentrancy_write_after_call_sound fExtW progFns regW [] [] [] [] sAbi sWrite
    rfl (by decide) (by decide) (by decide) (by decide)

end Caracal
